import Mathlib

/-! # website-size-checker: a verification development of `cmd/cli/main.go`

The program fetches a list of URLs, measures the size of each dumped HTTP
response and prints the results sorted by size.  This file embeds the program
in Lean and proves properties of it.

Modelling conventions
* Go `string` values are Lean `String`s (command-line text, valid UTF-8).
* Go `int` is `Int`; the only arithmetic that can overflow is the conversion of
  the timeout to a `time.Duration`, which is wrapped to 64 bits.
* Go `error` values are represented by their message, `nil` by `none`.
* The HTTP stack (`http.NewRequest`, `Client.Do`, `httputil.DumpResponse`) is an
  external collaborator and is a parameter of the model (`Transport`).
* Effects (standard output, network calls, channel sends) are recorded in an
  explicit event trace.
* Goroutines and the result channel are modelled by an executable step function
  driven by a schedule of scheduler decisions.
-/

namespace WebsiteSizeChecker

/-! ## Data model -/

/-- Go `type Visit struct { Url string; BodySize int; Error error }`. -/
structure Visit where
  Url : String
  BodySize : Int
  Error : Option String
  deriving DecidableEq, Repr

/-- One byte of a dumped response. -/
abbrev Byte := Fin 256

/-- Go `http.Client`, of which the program sets only `Timeout` (nanoseconds). -/
structure Client where
  Timeout : Int
  deriving DecidableEq, Repr

/-- Observable effects of the program, in the order they happen. -/
inductive Event where
  /-- entry of `visitUrl` for this URL -/
  | enter (url : String)
  /-- text written to standard output by `fmt.Println` or `fmt.Printf` -/
  | print (s : String)
  /-- a call of `client.Do` for a request built from this method and URL -/
  | netCall (c : Client) (method url : String)
  /-- the send `visitQ <- v` on the result channel -/
  | send (v : Visit)
  deriving DecidableEq, Repr

/-- The external HTTP capability used by `visitUrl`: request construction
(`http.NewRequest` with a nil body), the client call (`client.Do`) and the
serialisation of the response (`httputil.DumpResponse(resp, true)`).  Each stage
either fails with an error or yields its result. -/
structure Transport (Req Resp : Type) where
  newRequest : String → String → Except String Req
  clientDo : Client → Req → Except String Resp
  dumpResponse : Resp → Except String (List Byte)

/-! ## `contains` -/

/-- Go `contains(s []string, e string) bool`: the loop returns `true` at the first
element equal to `e`, and `false` after the last one. -/
def contains : List String → String → Bool
  | [], _ => false
  | a :: s, e => if a == e then true else contains s e

/-! ## `sort.SliceStable` and `sortVisits` -/

/-- The inner loop of the library insertion sort
`for j := i; j > a && less(data[j], data[j-1]); j-- { swap(j, j-1) }`.
`acc` is the already sorted prefix `data[a:i]` listed from right to left and `x`
is `data[i]`: `x` moves left past every element it is `less` than and stops at
the first one it is not. -/
def insertionStep {α : Type} (less : α → α → Bool) : List α → α → List α
  | [], x => [x]
  | y :: ys, x => if less x y then y :: insertionStep less ys x else x :: y :: ys

/-- Go `sort.SliceStable(data, less)`, where `less` is given on elements.  The
library sorts blocks by insertion sort (the outer loop `for i := a + 1; i < b`
is the left fold) and merges longer inputs stably; a stable sort of a list is
determined by the list and `less` (`sortVisits_unique` below), so the insertion
sort stands for the routine at every length. -/
def SliceStable {α : Type} (less : α → α → Bool) (data : List α) : List α :=
  (data.foldl (insertionStep less) []).reverse

/-- Go `sortVisits(visits []*Visit, asc bool)`; the slice sorted in place is the
result. -/
def sortVisits (visits : List Visit) (asc : Bool) : List Visit :=
  if asc then
    SliceStable (fun vi vj => decide (vi.BodySize < vj.BodySize)) visits
  else
    SliceStable (fun vi vj => decide (vi.BodySize > vj.BodySize)) visits

/-! ## `strings.ToUpper` -/

/-- The test `c >= utf8.RuneSelf` negated: the rune is a single ASCII byte. -/
def isASCII (c : Char) : Bool := decide (c.toNat < 128)

/-- The test `'a' <= c && c <= 'z'`. -/
def isLowerASCII (c : Char) : Bool := decide (97 ≤ c.toNat) && decide (c.toNat ≤ 122)

/-- The assignment `c -= 'a' - 'A'` applied to lower-case ASCII letters only. -/
def upperASCII (c : Char) : Char :=
  if isLowerASCII c then Char.ofNat (c.toNat - 32) else c

/-- Go `unicode.ToUpper`: ASCII runes are mapped directly, every other rune
through the library case tables, which are the parameter `table`. -/
def unicodeToUpper (table : Char → Char) (r : Char) : Char :=
  if r.toNat ≤ 127 then upperASCII r else table r

/-- Go `strings.ToUpper`: an ASCII-only string without lower-case letters is
returned as it is, an ASCII-only string has its lower-case letters replaced, and
any other string is mapped rune by rune through `unicode.ToUpper`. -/
def ToUpper (table : Char → Char) (s : String) : String :=
  if s.data.all isASCII then
    if !(s.data.any isLowerASCII) then s else String.mk (s.data.map upperASCII)
  else
    String.mk (s.data.map (unicodeToUpper table))

/-! ## `visitUrl` -/

/-- Conversion to a 64-bit signed integer with wrap-around. -/
def wrapInt64 (x : Int) : Int := (x + 2 ^ 63) % 2 ^ 64 - 2 ^ 63

/-- Go `time.Second` as a `time.Duration` (nanoseconds). -/
def Second : Int := 1000000000

/-- The block `if client == nil { client = &http.Client{Timeout: ...} }`: the client
in use is the supplied one, or a new client whose timeout is
`time.Duration(timeout) * time.Second`. -/
def clientFor (client : Option Client) (timeout : Int) : Client :=
  match client with
  | some c => c
  | none => { Timeout := wrapInt64 (wrapInt64 timeout * Second) }

/-- Go `visitUrl(client, urlAddress, method, timeout, concurrent, verbose, visitQ)`.
The result is the returned `Visit` together with the effects of the call in
order.  The deferred function runs last on every return path and, when
`concurrent` is set, sends the final value of the visit on `visitQ`; the channel
itself is represented by the `Event.send` it receives. -/
def visitUrl {Req Resp : Type} (T : Transport Req Resp) (client : Option Client)
    (urlAddress method : String) (timeout : Int) (concurrent verbose : Bool) :
    Visit × List Event :=
  let visit : Visit := { Url := urlAddress, BodySize := 0, Error := none }
  let deferred : Visit → List Event := fun v => if concurrent then [Event.send v] else []
  let client : Client := clientFor client timeout
  match T.newRequest method urlAddress with
  | Except.error err =>
    let out : List Event :=
      if verbose then
        [Event.print ("ERROR: cannot create a valid request - ignoring invalid URL '" ++
          urlAddress ++ "', setting body size to zero\n")]
      else []
    let visit := { visit with Error := some err }
    (visit, Event.enter urlAddress :: (out ++ deferred visit))
  | Except.ok req =>
    match T.clientDo client req with
    | Except.error err =>
      let visit := { visit with Error := some err }
      (visit, Event.enter urlAddress :: Event.netCall client method urlAddress :: deferred visit)
    | Except.ok resp =>
      match T.dumpResponse resp with
      | Except.error err =>
        let visit := { visit with Error := some err }
        (visit, Event.enter urlAddress :: Event.netCall client method urlAddress :: deferred visit)
      | Except.ok b =>
        let visit := { visit with BodySize := (b.length : Int) }
        (visit, Event.enter urlAddress :: Event.netCall client method urlAddress :: deferred visit)

/-! ## `main` -/

/-- The package-level flag variables after `flag.Parse()`. -/
structure Flags where
  timeout : Int
  concurrency : Int
  verbose : Bool
  method : String
  deriving DecidableEq, Repr

/-- The result of a run: the exit code, the final `visits` slice and the effects. -/
structure Outcome where
  exitCode : Nat
  visits : List Visit
  trace : List Event
  deriving DecidableEq, Repr

/-- The method list of the validation in `main`: `http.MethodGet`, ..., `http.MethodTrace`. -/
def validMethods : List String :=
  ["GET", "HEAD", "POST", "PUT", "PATCH", "DELETE", "CONNECT", "OPTIONS", "TRACE"]

/-- The visits sent on the channel by a sequence of effects. -/
def sends : List Event → List Visit
  | [] => []
  | Event.send v :: es => v :: sends es
  | _ :: es => sends es

/-- The URLs for which `visitUrl` was entered in a sequence of effects. -/
def visited : List Event → List String
  | [] => []
  | Event.enter url :: es => url :: visited es
  | _ :: es => visited es

/-- The URLs for which a network call was made by a sequence of effects. -/
def netCalls : List Event → List String
  | [] => []
  | Event.netCall _ _ url :: es => url :: netCalls es
  | _ :: es => netCalls es

/-- State of the concurrent branch of `main`: the URLs whose goroutine has not
yet sent its visit, the contents of the buffered channel `visitQ` in FIFO order,
the `visits` slice appended to by the receive loop, and the effects so far. -/
structure Collector where
  pending : List String
  visitQ : List Visit
  visits : List Visit
  trace : List Event
  deriving DecidableEq, Repr

/-- A scheduler decision: the goroutine of the `i`-th pending URL runs
`visitUrl` to its end, or the main goroutine performs its next receive. -/
inductive Action where
  | finish (i : Nat)
  | receive
  deriving DecidableEq, Repr

/-- One step of the concurrent branch, `none` when the decision is not enabled.
A goroutine `go visitUrl(nil, urlAddr, method, timeout, true, verbose, visitQ)`
can complete its send only while the channel, of capacity `concurrency`, has
room.  The receive loop `for i := 0; i < len(args); i++` takes the oldest visit
of the channel and appends it to `visits`; it blocks on an empty channel. -/
def step {Req Resp : Type} (T : Transport Req Resp) (flags : Flags) (n : Nat)
    (s : Collector) : Action → Option Collector
  | Action.finish i =>
    match s.pending[i]? with
    | none => none
    | some urlAddr =>
      if (s.visitQ.length : Int) < flags.concurrency then
        let r := visitUrl T none urlAddr flags.method flags.timeout true flags.verbose
        some { pending := s.pending.eraseIdx i
               visitQ := s.visitQ ++ sends r.2
               visits := s.visits
               trace := s.trace ++ r.2 }
      else none
  | Action.receive =>
    if s.visits.length < n then
      match s.visitQ with
      | [] => none
      | visit :: q => some { s with visitQ := q, visits := s.visits ++ [visit] }
    else none

/-- Execution of a schedule from a state, `none` when some decision of the
schedule is not enabled. -/
def runSchedule {Req Resp : Type} (T : Transport Req Resp) (flags : Flags) (n : Nat) :
    Collector → List Action → Option Collector
  | s, [] => some s
  | s, a :: sched =>
    match step T flags n s a with
    | none => none
    | some s' => runSchedule T flags n s' sched

/-- The state of the concurrent branch once every goroutine has been started. -/
def initCollector (args : List String) : Collector :=
  { pending := args, visitQ := [], visits := [], trace := [] }

/-- Body of the serial loop of `main`: a visit with an error is printed when
verbose and dropped, any other visit is appended to `visits`. -/
def serialStep {Req Resp : Type} (T : Transport Req Resp) (flags : Flags)
    (st : List Visit × List Event) (urlAddr : String) : List Visit × List Event :=
  let r := visitUrl T none urlAddr flags.method flags.timeout false flags.verbose
  match r.1.Error with
  | some err =>
    if flags.verbose then (st.1, st.2 ++ r.2 ++ [Event.print (err ++ "\n")])
    else (st.1, st.2 ++ r.2)
  | none => (st.1 ++ [r.1], st.2 ++ r.2)

/-- The serial loop `for _, urlAddr := range args`, started with empty `visits`. -/
def serialLoop {Req Resp : Type} (T : Transport Req Resp) (flags : Flags)
    (args : List String) : List Visit × List Event :=
  args.foldl (serialStep T flags) ([], [])

/-- One line of the report, `"%s %d bytes (%s)\n"` or `"%s %d bytes\n"`. -/
def reportLine (visit : Visit) : String :=
  match visit.Error with
  | some err => visit.Url ++ " " ++ toString visit.BodySize ++ " bytes (" ++ err ++ ")\n"
  | none => visit.Url ++ " " ++ toString visit.BodySize ++ " bytes\n"

/-- The usage text printed when no URL is given. -/
def helpText : List String :=
  ["For help run: \n$ wsc -h\n",
   "\n",
   "Example with default values:\n",
   "$ wsc https://...de/ https://...com/\n",
   "https://...de/ 14953 bytes\nhttps://...com/ 359600 bytes\n",
   "\n",
   "Example with request timeout in seconds:\n",
   "$ wsc -t 5 https://...de/ https://...com/\n",
   "https://...de/ 14953 bytes\nhttps://...com/ 359600 bytes\n",
   "\n",
   "Example with max concurrent requests:\n",
   "$ wsc -c 2 https://...de/ https://...com/\n",
   "https://...de/ 14953 bytes\nhttps://...com/ 359600 bytes\n",
   "\n",
   "Example with POST method request:\n",
   "$ wsc -c 2 -m POST https://...de/ https://...com/\n",
   "https://...de/ 1453 bytes\nhttps://...com/ 5960 bytes\n",
   "\n",
   "Example with verbose mode enabled:\n",
   "$ wsc -v -c 2 -t 1 -m POST https://...de/ https://...com/ https://....com.br\n",
   "https://....com.br 0 bytes (Post \"https://....com.br\": context deadline exceeded (Client.Timeout exceeded while awaiting headers))\nhttps://....de/ 936 bytes\nhttps://...com/ 1861 bytes\n",
   "\n"]

/-- Go `main()` after `flag.Parse()`, for the parsed flags, the positional
arguments `args` and, for the concurrent branch, a schedule.  The three
validations run in source order and each ends the run with its exit code.  The
result is `none` when the schedule is not a complete execution of the
concurrent branch (it does not describe a run of the program). -/
def main {Req Resp : Type} (T : Transport Req Resp) (table : Char → Char) (flags : Flags)
    (args : List String) (sched : List Action) : Option Outcome :=
  if flags.timeout < 1 ∨ flags.timeout > 600 then
    some { exitCode := 1, visits := []
           trace := [Event.print "-t timeout param must be in the range [1, 600]\n"] }
  else if flags.concurrency < 1 ∨ flags.concurrency > 100 then
    some { exitCode := 2, visits := []
           trace := [Event.print "-c concurrency param must be in the range [1, 100]\n"] }
  else if !contains validMethods (ToUpper table flags.method) then
    some { exitCode := 3, visits := []
           trace := [Event.print ("-m http unsupported http method, use valid values [GET, HEAD, POST, PUT, PATCH, DELETE, " ++
             "CONNECT, OPTIONS, TRACE]\n")] }
  else if args.length > 0 then
    if flags.concurrency > 1 then
      match runSchedule T flags args.length (initCollector args) sched with
      | none => none
      | some s =>
        if s.visits.length = args.length then
          let visits := sortVisits s.visits true
          some { exitCode := 0, visits := visits
                 trace := s.trace ++ visits.map (fun v => Event.print (reportLine v)) }
        else none
    else
      let st := serialLoop T flags args
      let visits := sortVisits st.1 true
      some { exitCode := 0, visits := visits
             trace := st.2 ++ visits.map (fun v => Event.print (reportLine v)) }
  else
    some { exitCode := 0, visits := [], trace := helpText.map Event.print }

/-! ## Quantities used to reason about the concurrent branch -/

/-- The visit that the goroutine started for `urlAddr` sends on the channel. -/
def concurrentVisit {Req Resp : Type} (T : Transport Req Resp) (flags : Flags)
    (urlAddr : String) : Visit :=
  (visitUrl T none urlAddr flags.method flags.timeout true flags.verbose).1

/-- The visits of a state wherever they are: collected, in the channel, or
still to be produced by a pending goroutine. -/
def allVisits {Req Resp : Type} (T : Transport Req Resp) (flags : Flags)
    (s : Collector) : List Visit :=
  s.visits ++ s.visitQ ++ s.pending.map (concurrentVisit T flags)

/-- The number of steps a state is away from the end of the receive loop. -/
def weight (s : Collector) : Nat := 2 * s.pending.length + s.visitQ.length

/-- The visit returned by the serial call of `visitUrl` for `urlAddr`. -/
def serialVisit {Req Resp : Type} (T : Transport Req Resp) (flags : Flags)
    (urlAddr : String) : Visit :=
  (visitUrl T none urlAddr flags.method flags.timeout false flags.verbose).1

/-! ## A mock transport

The tests of the repository register mock responders for single URLs; the
concrete instances below use the same kind of transport. -/

/-- The JSON payload of the tests, 22 bytes. -/
def mockBody : List Byte := List.replicate 22 0

/-- A mock HTTP stack: a request for the URL `":"` cannot be constructed, the
endpoint `http://123.de` answers with `mockBody`, whose dump carries 17 further
bytes of status line and headers, every other endpoint fails with `timeout`. -/
def mockTransport : Transport (String × String) (List Byte) where
  newRequest := fun method url =>
    if url = ":" then Except.error "missing protocol scheme" else Except.ok (method, url)
  clientDo := fun _ req =>
    if req.2 = "http://123.de" then Except.ok mockBody else Except.error "timeout"
  dumpResponse := fun resp => Except.ok (List.replicate 17 0 ++ resp)

/-- The visits of `TestSortingAscending` and `TestSortingDescending`. -/
def testVisits : List Visit :=
  [{ Url := "https://www.10.de/", BodySize := 1386124, Error := none },
   { Url := "https://www.7.de/", BodySize := 997149, Error := none },
   { Url := "https://www.6.de/", BodySize := 915400, Error := none },
   { Url := "https://www.9.net/", BodySize := 1183526, Error := none },
   { Url := "https://www.8.de/", BodySize := 1021858, Error := none }]

/-- Flags of a run over the mock transport with the given concurrency and method. -/
def mockFlags (concurrency : Int) (method : String) : Flags :=
  { timeout := 10, concurrency := concurrency, verbose := false, method := method }

/-- Two URLs of the mock transport: the first answers, the second times out. -/
def mockArgs : List String := ["http://123.de", "http://1234.de"]

/-- Two URLs of the mock transport that both time out. -/
def downArgs : List String := ["http://a", "http://b"]

/-! ## Properties of the library insertion sort -/

section SliceStable

variable {α : Type}

theorem insertionStep_perm (less : α → α → Bool) (x : α) :
    ∀ acc : List α, (insertionStep less acc x).Perm (x :: acc)
  | [] => List.Perm.refl _
  | y :: ys => by
    unfold insertionStep
    split
    · exact ((insertionStep_perm less x ys).cons y).trans (List.Perm.swap x y ys)
    · exact List.Perm.refl _

theorem foldl_insertionStep_perm (less : α → α → Bool) :
    ∀ (l acc : List α), (l.foldl (insertionStep less) acc).Perm (l ++ acc)
  | [], acc => List.Perm.refl _
  | a :: l, acc => by
    have h1 := foldl_insertionStep_perm less l (insertionStep less acc a)
    have h2 : (l ++ insertionStep less acc a).Perm (l ++ a :: acc) :=
      (insertionStep_perm less a acc).append_left l
    have h3 : (l ++ a :: acc).Perm (a :: (l ++ acc)) := List.perm_middle
    simpa using (h1.trans h2).trans h3

theorem SliceStable_perm (less : α → α → Bool) (l : List α) :
    (SliceStable less l).Perm l := by
  have h := foldl_insertionStep_perm less l []
  rw [List.append_nil] at h
  exact (List.reverse_perm _).trans h

theorem insertionStep_pairwise (less : α → α → Bool)
    (hasym : ∀ a b, less a b = true → less b a = false)
    (htrans : ∀ a b c, less a b = false → less b c = false → less a c = false) (x : α) :
    ∀ acc : List α, acc.Pairwise (fun y z => less y z = false) →
      (insertionStep less acc x).Pairwise (fun y z => less y z = false)
  | [], _ => by simp [insertionStep]
  | y :: ys, h => by
    rw [List.pairwise_cons] at h
    unfold insertionStep
    split
    · rename_i hlt
      rw [List.pairwise_cons]
      refine ⟨?_, insertionStep_pairwise less hasym htrans x ys h.2⟩
      intro z hz
      rcases List.mem_cons.mp ((insertionStep_perm less x ys).mem_iff.mp hz) with hzx | hzy
      · rw [hzx]; exact hasym x y hlt
      · exact h.1 z hzy
    · rename_i hge
      have hxy : less x y = false := by simpa using hge
      rw [List.pairwise_cons]
      refine ⟨?_, List.pairwise_cons.mpr h⟩
      intro z hz
      rcases List.mem_cons.mp hz with hzy | hzy
      · rw [hzy]; exact hxy
      · exact htrans x y z hxy (h.1 z hzy)

theorem foldl_insertionStep_pairwise (less : α → α → Bool)
    (hasym : ∀ a b, less a b = true → less b a = false)
    (htrans : ∀ a b c, less a b = false → less b c = false → less a c = false) :
    ∀ (l acc : List α), acc.Pairwise (fun y z => less y z = false) →
      (l.foldl (insertionStep less) acc).Pairwise (fun y z => less y z = false)
  | [], _, h => h
  | a :: l, acc, h =>
    foldl_insertionStep_pairwise less hasym htrans l _
      (insertionStep_pairwise less hasym htrans a acc h)

/-- The result of the sort is ordered: no element is `less` than an earlier one. -/
theorem SliceStable_pairwise (less : α → α → Bool)
    (hasym : ∀ a b, less a b = true → less b a = false)
    (htrans : ∀ a b c, less a b = false → less b c = false → less a c = false)
    (l : List α) : (SliceStable less l).Pairwise (fun a b => less b a = false) := by
  unfold SliceStable
  rw [List.pairwise_reverse]
  exact foldl_insertionStep_pairwise less hasym htrans l [] List.Pairwise.nil

theorem insertionStep_filter (less : α → α → Bool) (p : α → Bool)
    (hp : ∀ a b, p a = true → p b = true → less a b = false) (x : α) :
    ∀ acc : List α, (insertionStep less acc x).filter p = (x :: acc).filter p
  | [] => rfl
  | y :: ys => by
    unfold insertionStep
    split
    · rename_i hlt
      have ih := insertionStep_filter less p hp x ys
      cases hx : p x
      · simp [List.filter_cons, hx] at ih ⊢
        rw [ih]
      · have hy : p y = false := by
          cases hy : p y
          · rfl
          · have := hp x y hx hy
            rw [this] at hlt
            exact absurd hlt (by simp)
        simp [List.filter_cons, hx, hy] at ih ⊢
        exact ih
    · rfl

theorem foldl_insertionStep_filter (less : α → α → Bool) (p : α → Bool)
    (hp : ∀ a b, p a = true → p b = true → less a b = false) :
    ∀ (l acc : List α),
      (l.foldl (insertionStep less) acc).filter p = (l.filter p).reverse ++ acc.filter p
  | [], acc => by simp
  | a :: l, acc => by
    rw [List.foldl_cons, foldl_insertionStep_filter less p hp l, insertionStep_filter less p hp]
    cases ha : p a <;> simp [List.filter_cons, ha]

/-- Stability: the elements of a class whose members are never `less` than one
another keep their input order. -/
theorem SliceStable_filter (less : α → α → Bool) (p : α → Bool)
    (hp : ∀ a b, p a = true → p b = true → less a b = false) (l : List α) :
    (SliceStable less l).filter p = l.filter p := by
  unfold SliceStable
  rw [List.filter_reverse, foldl_insertionStep_filter less p hp]
  simp

theorem insertionStep_map {β : Type} (less : α → α → Bool) (less' : β → β → Bool) (f : α → β)
    (hf : ∀ a b, less' (f a) (f b) = less a b) (x : α) :
    ∀ acc : List α, insertionStep less' (acc.map f) (f x) = (insertionStep less acc x).map f
  | [] => rfl
  | y :: ys => by
    simp only [List.map_cons, insertionStep, hf]
    split
    · simp [insertionStep_map less less' f hf x ys]
    · simp

theorem foldl_insertionStep_map {β : Type} (less : α → α → Bool) (less' : β → β → Bool)
    (f : α → β) (hf : ∀ a b, less' (f a) (f b) = less a b) :
    ∀ (l acc : List α), (l.map f).foldl (insertionStep less') (acc.map f)
      = (l.foldl (insertionStep less) acc).map f
  | [], _ => rfl
  | a :: l, acc => by
    rw [List.map_cons, List.foldl_cons, List.foldl_cons, insertionStep_map less less' f hf,
      foldl_insertionStep_map less less' f hf l]

/-- The sort commutes with every map that preserves the comparison. -/
theorem SliceStable_map {β : Type} (less : α → α → Bool) (less' : β → β → Bool) (f : α → β)
    (hf : ∀ a b, less' (f a) (f b) = less a b) (l : List α) :
    SliceStable less' (l.map f) = (SliceStable less l).map f := by
  unfold SliceStable
  have h := foldl_insertionStep_map less less' f hf l []
  rw [List.map_nil] at h
  rw [h, List.map_reverse]

end SliceStable

/-! ## `sortVisits` -/

/-- The ascending comparison of `sortVisits`. -/
theorem sortVisits_asc (visits : List Visit) :
    sortVisits visits true
      = SliceStable (fun vi vj => decide (vi.BodySize < vj.BodySize)) visits := by
  simp [sortVisits]

/-- The descending comparison of `sortVisits`. -/
theorem sortVisits_desc (visits : List Visit) :
    sortVisits visits false
      = SliceStable (fun vi vj => decide (vi.BodySize > vj.BodySize)) visits := by
  simp [sortVisits]

theorem sortVisits_perm (visits : List Visit) (asc : Bool) :
    (sortVisits visits asc).Perm visits := by
  cases asc
  · rw [sortVisits_desc]; exact SliceStable_perm _ _
  · rw [sortVisits_asc]; exact SliceStable_perm _ _

theorem sortVisits_sorted_asc (visits : List Visit) :
    (sortVisits visits true).Pairwise (fun a b => a.BodySize ≤ b.BodySize) := by
  rw [sortVisits_asc]
  refine (SliceStable_pairwise (fun vi vj => decide (vi.BodySize < vj.BodySize)) ?_ ?_ visits).imp
    ?_
  · intro a b h
    simp only [decide_eq_true_eq, decide_eq_false_iff_not] at h ⊢
    omega
  · intro a b c h1 h2
    simp only [decide_eq_false_iff_not] at h1 h2 ⊢
    omega
  · intro a b h
    simp only [decide_eq_false_iff_not] at h
    omega

theorem sortVisits_sorted_desc (visits : List Visit) :
    (sortVisits visits false).Pairwise (fun a b => b.BodySize ≤ a.BodySize) := by
  rw [sortVisits_desc]
  refine (SliceStable_pairwise (fun vi vj => decide (vi.BodySize > vj.BodySize)) ?_ ?_ visits).imp
    ?_
  · intro a b h
    simp only [decide_eq_true_eq, decide_eq_false_iff_not, gt_iff_lt] at h ⊢
    omega
  · intro a b c h1 h2
    simp only [decide_eq_false_iff_not, gt_iff_lt] at h1 h2 ⊢
    omega
  · intro a b h
    simp only [decide_eq_false_iff_not, gt_iff_lt] at h
    omega

theorem sortVisits_filter (visits : List Visit) (asc : Bool) (size : Int) :
    (sortVisits visits asc).filter (fun v => decide (v.BodySize = size))
      = visits.filter (fun v => decide (v.BodySize = size)) := by
  cases asc
  · rw [sortVisits_desc]
    apply SliceStable_filter
    intro a b ha hb
    simp only [decide_eq_true_eq, decide_eq_false_iff_not, gt_iff_lt] at ha hb ⊢
    omega
  · rw [sortVisits_asc]
    apply SliceStable_filter
    intro a b ha hb
    simp only [decide_eq_true_eq, decide_eq_false_iff_not] at ha hb ⊢
    omega

theorem sortVisits_map (visits : List Visit) (asc : Bool) (f : Visit → Visit)
    (hf : ∀ v, (f v).BodySize = v.BodySize) :
    sortVisits (visits.map f) asc = (sortVisits visits asc).map f := by
  cases asc
  · rw [sortVisits_desc, sortVisits_desc]
    exact SliceStable_map _ _ f (fun a b => by simp [hf]) visits
  · rw [sortVisits_asc, sortVisits_asc]
    exact SliceStable_map _ _ f (fun a b => by simp [hf]) visits

/-- The sequence of sizes of the sorted list is the same for every arrangement
of the same visits. -/
theorem sortVisits_sizes_of_perm (l₁ l₂ : List Visit) (h : l₁.Perm l₂) :
    (sortVisits l₁ true).map Visit.BodySize = (sortVisits l₂ true).map Visit.BodySize := by
  have hp : ((sortVisits l₁ true).map Visit.BodySize).Perm
      ((sortVisits l₂ true).map Visit.BodySize) :=
    (((sortVisits_perm l₁ true).trans h).trans (sortVisits_perm l₂ true).symm).map _
  have h1 : ((sortVisits l₁ true).map Visit.BodySize).Sorted (· ≤ ·) :=
    List.pairwise_map.mpr (sortVisits_sorted_asc l₁)
  have h2 : ((sortVisits l₂ true).map Visit.BodySize).Sorted (· ≤ ·) :=
    List.pairwise_map.mpr (sortVisits_sorted_asc l₂)
  exact List.eq_of_perm_of_sorted hp h1 h2

/-- Two arrangements of the same visits sort to the same list when visits of
equal size are equal. -/
theorem sortVisits_eq_of_perm (l₁ l₂ : List Visit) (h : l₁.Perm l₂)
    (hties : ∀ a ∈ l₁, ∀ b ∈ l₁, a.BodySize = b.BodySize → a = b) :
    sortVisits l₁ true = sortVisits l₂ true := by
  have hp : (sortVisits l₁ true).Perm (sortVisits l₂ true) :=
    ((sortVisits_perm l₁ true).trans h).trans (sortVisits_perm l₂ true).symm
  let r : Visit → Visit → Prop := fun a b => a.BodySize < b.BodySize ∨ a = b
  haveI : IsAntisymm Visit r :=
    ⟨fun a b hab hba => by
      rcases hab with hab | hab
      · rcases hba with hba | hba
        · omega
        · exact hba.symm
      · exact hab⟩
  have h1 : (sortVisits l₁ true).Sorted r := by
    refine (sortVisits_sorted_asc l₁).imp_of_mem ?_
    intro a b ha hb hab
    have ha' := (sortVisits_perm l₁ true).mem_iff.mp ha
    have hb' := (sortVisits_perm l₁ true).mem_iff.mp hb
    rcases lt_or_eq_of_le hab with hlt | heq
    · exact Or.inl hlt
    · exact Or.inr (hties a ha' b hb' heq)
  have h2 : (sortVisits l₂ true).Sorted r := by
    refine (sortVisits_sorted_asc l₂).imp_of_mem ?_
    intro a b ha hb hab
    have ha' := h.mem_iff.mpr ((sortVisits_perm l₂ true).mem_iff.mp ha)
    have hb' := h.mem_iff.mpr ((sortVisits_perm l₂ true).mem_iff.mp hb)
    rcases lt_or_eq_of_le hab with hlt | heq
    · exact Or.inl hlt
    · exact Or.inr (hties a ha' b hb' heq)
  exact List.eq_of_perm_of_sorted hp h1 h2

/-! ## Uniqueness of the stable sort

Two lists ordered by a key that agree on every class of equal keys are equal.
Hence every stable sorting routine returns the list computed by `SliceStable`,
whatever its algorithm. -/

theorem sorted_eq_of_filter_eq {α : Type} (key : α → Int) :
    ∀ (s₁ s₂ : List α), s₁.Pairwise (fun a b => key a ≤ key b) →
      s₂.Pairwise (fun a b => key a ≤ key b) →
      (∀ k : Int, s₁.filter (fun v => decide (key v = k))
        = s₂.filter (fun v => decide (key v = k))) → s₁ = s₂
  | [], [], _, _, _ => rfl
  | [], b :: t₂, _, _, h => by
    have := h (key b)
    simp [List.filter_cons] at this
  | a :: t₁, [], _, _, h => by
    have := h (key a)
    simp [List.filter_cons] at this
  | a :: t₁, b :: t₂, h₁, h₂, h => by
    rw [List.pairwise_cons] at h₁ h₂
    have hab : key b ≤ key a := by
      have hmem : a ∈ (b :: t₂).filter (fun v => decide (key v = key a)) := by
        rw [← h (key a)]
        simp [List.filter_cons]
      rcases List.mem_cons.mp (List.mem_filter.mp hmem).1 with hEq | hIn
      · rw [hEq]
      · exact h₂.1 a hIn
    have hba : key a ≤ key b := by
      have hmem : b ∈ (a :: t₁).filter (fun v => decide (key v = key b)) := by
        rw [h (key b)]
        simp [List.filter_cons]
      rcases List.mem_cons.mp (List.mem_filter.mp hmem).1 with hEq | hIn
      · rw [hEq]
      · exact h₁.1 b hIn
    have hkey : key a = key b := le_antisymm hba hab
    have hhead := h (key a)
    simp only [List.filter_cons, decide_True, if_true, hkey] at hhead
    have hEq : a = b := by
      simp only [← hkey, decide_True, if_true] at hhead
      exact (List.cons.inj hhead).1
    subst hEq
    have htail : ∀ k : Int, t₁.filter (fun v => decide (key v = k))
        = t₂.filter (fun v => decide (key v = k)) := by
      intro k
      have hk := h k
      by_cases hak : key a = k
      · simp only [List.filter_cons, hak, decide_True, if_true] at hk
        exact (List.cons.inj hk).2
      · simpa [List.filter_cons, hak] using hk
    rw [sorted_eq_of_filter_eq key t₁ t₂ h₁.2 h₂.2 htail]

/-- Every list that is ordered by `BodySize` in the direction of `asc` and keeps
the input order within each class of equal sizes is the list that `sortVisits`
computes. -/
theorem sortVisits_unique (visits out : List Visit) (asc : Bool)
    (hsorted : out.Pairwise
      (fun a b => if asc = true then a.BodySize ≤ b.BodySize else b.BodySize ≤ a.BodySize))
    (hstable : ∀ size : Int, out.filter (fun v => decide (v.BodySize = size))
      = visits.filter (fun v => decide (v.BodySize = size))) :
    out = sortVisits visits asc := by
  cases asc
  · have hfilter : ∀ (l : List Visit) (k : Int),
        l.filter (fun v => decide (-v.BodySize = k))
          = l.filter (fun v => decide (v.BodySize = -k)) := by
      intro l k
      congr 1
      funext v
      exact decide_eq_decide.mpr ⟨fun hv => by omega, fun hv => by omega⟩
    apply sorted_eq_of_filter_eq (fun v => -v.BodySize)
    · refine hsorted.imp ?_
      intro a b hab
      simp only [Bool.false_eq_true, if_false] at hab
      omega
    · refine (sortVisits_sorted_desc visits).imp ?_
      intro a b hab
      omega
    · intro k
      rw [hfilter, hfilter, hstable, sortVisits_filter]
  · apply sorted_eq_of_filter_eq Visit.BodySize
    · simpa using hsorted
    · exact sortVisits_sorted_asc visits
    · intro k
      rw [hstable, sortVisits_filter]

/-! ## `contains` and `strings.ToUpper` -/

theorem contains_iff_mem (e : String) : ∀ s : List String, contains s e = true ↔ e ∈ s
  | [] => by simp [contains]
  | a :: s => by
    unfold contains
    by_cases h : a = e
    · simp [h]
    · have h' : ¬ e = a := fun he => h he.symm
      simp [h, h', contains_iff_mem e s]

theorem upperASCII_of_not_lower (c : Char) (h : isLowerASCII c = false) : upperASCII c = c := by
  simp [upperASCII, h]

/-- On ASCII-only strings `strings.ToUpper` replaces the lower-case letters and
does not consult the case tables. -/
theorem ToUpper_ascii (table : Char → Char) (s : String) (h : s.data.all isASCII = true) :
    ToUpper table s = String.mk (s.data.map upperASCII) := by
  unfold ToUpper
  rw [if_pos h]
  split
  · rename_i hlow
    have hall : ∀ c ∈ s.data, upperASCII c = c := by
      intro c hc
      apply upperASCII_of_not_lower
      simp only [Bool.not_eq_true', List.any_eq_false] at hlow
      simpa using hlow c hc
    have hmap : s.data.map upperASCII = s.data := by
      conv_rhs => rw [← List.map_id s.data]
      exact List.map_congr_left (fun c hc => by simpa using hall c hc)
    rw [hmap]
  · rfl

/-! ## `visitUrl` -/

section VisitUrl

variable {Req Resp : Type} (T : Transport Req Resp)

theorem visitUrl_newRequest_error (client : Option Client) (urlAddress method : String)
    (timeout : Int) (concurrent verbose : Bool) (err : String)
    (h : T.newRequest method urlAddress = Except.error err) :
    (visitUrl T client urlAddress method timeout concurrent verbose).1
        = { Url := urlAddress, BodySize := 0, Error := some err }
      ∧ netCalls (visitUrl T client urlAddress method timeout concurrent verbose).2 = [] := by
  unfold visitUrl
  simp only [h]
  cases concurrent <;> cases verbose <;> simp [netCalls]

theorem visitUrl_clientDo_error (client : Option Client) (urlAddress method : String)
    (timeout : Int) (concurrent verbose : Bool) (req : Req) (err : String)
    (h₁ : T.newRequest method urlAddress = Except.ok req)
    (h₂ : T.clientDo (clientFor client timeout) req = Except.error err) :
    (visitUrl T client urlAddress method timeout concurrent verbose).1
        = { Url := urlAddress, BodySize := 0, Error := some err } := by
  unfold visitUrl
  simp only [h₁, h₂]

theorem visitUrl_dumpResponse_error (client : Option Client) (urlAddress method : String)
    (timeout : Int) (concurrent verbose : Bool) (req : Req) (resp : Resp) (err : String)
    (h₁ : T.newRequest method urlAddress = Except.ok req)
    (h₂ : T.clientDo (clientFor client timeout) req = Except.ok resp)
    (h₃ : T.dumpResponse resp = Except.error err) :
    (visitUrl T client urlAddress method timeout concurrent verbose).1
        = { Url := urlAddress, BodySize := 0, Error := some err } := by
  unfold visitUrl
  simp only [h₁, h₂, h₃]

theorem visitUrl_ok (client : Option Client) (urlAddress method : String)
    (timeout : Int) (concurrent verbose : Bool) (req : Req) (resp : Resp) (b : List Byte)
    (h₁ : T.newRequest method urlAddress = Except.ok req)
    (h₂ : T.clientDo (clientFor client timeout) req = Except.ok resp)
    (h₃ : T.dumpResponse resp = Except.ok b) :
    (visitUrl T client urlAddress method timeout concurrent verbose).1
        = { Url := urlAddress, BodySize := (b.length : Int), Error := none } := by
  unfold visitUrl
  simp only [h₁, h₂, h₃]

/-- The deferred function sends the returned visit, once, on every return path
of a concurrent call. -/
theorem visitUrl_sends (client : Option Client) (urlAddress method : String)
    (timeout : Int) (verbose : Bool) :
    sends (visitUrl T client urlAddress method timeout true verbose).2
      = [(visitUrl T client urlAddress method timeout true verbose).1] := by
  unfold visitUrl
  cases h₁ : T.newRequest method urlAddress with
  | error err => cases verbose <;> simp [sends]
  | ok req =>
    cases h₂ : T.clientDo (clientFor client timeout) req with
    | error err => simp [h₂, sends]
    | ok resp =>
      cases h₃ : T.dumpResponse resp with
      | error err => simp [h₂, h₃, sends]
      | ok b => simp [h₂, h₃, sends]

/-- A serial call sends nothing. -/
theorem visitUrl_serial_sends (client : Option Client) (urlAddress method : String)
    (timeout : Int) (verbose : Bool) :
    sends (visitUrl T client urlAddress method timeout false verbose).2 = [] := by
  unfold visitUrl
  cases h₁ : T.newRequest method urlAddress with
  | error err => cases verbose <;> simp [sends]
  | ok req =>
    cases h₂ : T.clientDo (clientFor client timeout) req with
    | error err => simp [h₂, sends]
    | ok resp =>
      cases h₃ : T.dumpResponse resp with
      | error err => simp [h₂, h₃, sends]
      | ok b => simp [h₂, h₃, sends]

end VisitUrl

/-! ## The concurrent branch -/

section Concurrent

variable {Req Resp : Type} (T : Transport Req Resp) (flags : Flags)

theorem perm_cons_eraseIdx {α : Type} :
    ∀ (l : List α) (i : Nat) (u : α), l[i]? = some u → l.Perm (u :: l.eraseIdx i)
  | [], _, _, h => by simp at h
  | a :: l, 0, u, h => by
    simp at h
    simp [h]
  | a :: l, i + 1, u, h => by
    have ih := perm_cons_eraseIdx l i u (by simpa using h)
    simp only [List.eraseIdx_cons_succ]
    exact (ih.cons a).trans (List.Perm.swap u a _)

theorem length_eraseIdx_of_get {α : Type} (l : List α) (i : Nat) (u : α)
    (h : l[i]? = some u) : (l.eraseIdx i).length + 1 = l.length := by
  have := (perm_cons_eraseIdx l i u h).length_eq
  simp at this
  omega

theorem step_finish_eq (n : Nat) (s s' : Collector) (i : Nat)
    (h : step T flags n s (Action.finish i) = some s') :
    ∃ urlAddr, s.pending[i]? = some urlAddr ∧ (s.visitQ.length : Int) < flags.concurrency ∧
      s'.pending = s.pending.eraseIdx i ∧
      s'.visitQ = s.visitQ ++ [concurrentVisit T flags urlAddr] ∧ s'.visits = s.visits := by
  unfold step at h
  cases hget : s.pending[i]? with
  | none => simp [hget] at h
  | some urlAddr =>
    simp only [hget] at h
    by_cases hroom : (s.visitQ.length : Int) < flags.concurrency
    · rw [if_pos hroom] at h
      simp only [Option.some.injEq] at h
      refine ⟨urlAddr, rfl, hroom, ?_, ?_, ?_⟩
      · rw [← h]
      · rw [← h, visitUrl_sends]; rfl
      · rw [← h]
    · rw [if_neg hroom] at h
      exact absurd h (by simp)

theorem step_receive_eq (n : Nat) (s s' : Collector)
    (h : step T flags n s Action.receive = some s') :
    ∃ visit, s.visits.length < n ∧ s.visitQ = visit :: s'.visitQ ∧
      s'.visits = s.visits ++ [visit] ∧ s'.pending = s.pending := by
  unfold step at h
  by_cases hn : s.visits.length < n
  · rw [if_pos hn] at h
    cases hq : s.visitQ with
    | nil => simp [hq] at h
    | cons visit q =>
      simp only [hq, Option.some.injEq] at h
      exact ⟨visit, hn, by rw [← h], by rw [← h], by rw [← h]⟩
  · rw [if_neg hn] at h
    exact absurd h (by simp)

/-- A step moves one visit and neither loses nor duplicates any. -/
theorem step_allVisits (n : Nat) (s s' : Collector) (a : Action)
    (h : step T flags n s a = some s') : (allVisits T flags s').Perm (allVisits T flags s) := by
  cases a with
  | finish i =>
    obtain ⟨urlAddr, hget, _, hp, hq, hv⟩ := step_finish_eq T flags n s s' i h
    unfold allVisits
    rw [hp, hq, hv]
    have hperm := (perm_cons_eraseIdx s.pending i urlAddr hget).map (concurrentVisit T flags)
    rw [List.map_cons] at hperm
    have h2 : (s.visits ++ (s.visitQ ++ [concurrentVisit T flags urlAddr]) ++
        (s.pending.eraseIdx i).map (concurrentVisit T flags)).Perm
        (s.visits ++ s.visitQ ++ (concurrentVisit T flags urlAddr ::
          (s.pending.eraseIdx i).map (concurrentVisit T flags))) := by
      simp only [List.append_assoc, List.singleton_append]
      exact List.Perm.refl _
    exact h2.trans (hperm.symm.append_left _)
  | receive =>
    obtain ⟨visit, _, hq, hv, hp⟩ := step_receive_eq T flags n s s' h
    unfold allVisits
    rw [hq, hv, hp]
    simp

theorem step_weight (n : Nat) (s s' : Collector) (a : Action)
    (h : step T flags n s a = some s') : weight s' + 1 = weight s := by
  cases a with
  | finish i =>
    obtain ⟨urlAddr, hget, _, hp, hq, _⟩ := step_finish_eq T flags n s s' i h
    have hlen := length_eraseIdx_of_get s.pending i urlAddr hget
    unfold weight
    rw [hp, hq]
    simp only [List.length_append, List.length_singleton]
    omega
  | receive =>
    obtain ⟨visit, _, hq, _, hp⟩ := step_receive_eq T flags n s s' h
    unfold weight
    rw [hq, hp]
    simp only [List.length_cons]
    omega

theorem runSchedule_allVisits (n : Nat) :
    ∀ (sched : List Action) (s s' : Collector), runSchedule T flags n s sched = some s' →
      (allVisits T flags s').Perm (allVisits T flags s)
  | [], s, s', h => by
    simp only [runSchedule, Option.some.injEq] at h
    rw [h]
  | a :: sched, s, s', h => by
    unfold runSchedule at h
    cases hstep : step T flags n s a with
    | none => simp [hstep] at h
    | some s₁ =>
      simp only [hstep] at h
      exact (runSchedule_allVisits n sched s₁ s' h).trans (step_allVisits T flags n s s₁ a hstep)

theorem runSchedule_weight (n : Nat) :
    ∀ (sched : List Action) (s s' : Collector), runSchedule T flags n s sched = some s' →
      weight s' + sched.length = weight s
  | [], s, s', h => by
    simp only [runSchedule, Option.some.injEq] at h
    simp [h]
  | a :: sched, s, s', h => by
    unfold runSchedule at h
    cases hstep : step T flags n s a with
    | none => simp [hstep] at h
    | some s₁ =>
      simp only [hstep] at h
      have h1 := runSchedule_weight n sched s₁ s' h
      have h2 := step_weight T flags n s s₁ a hstep
      simp only [List.length_cons]
      omega

theorem length_allVisits (s : Collector) :
    (allVisits T flags s).length = s.visits.length + s.visitQ.length + s.pending.length := by
  simp [allVisits, Nat.add_assoc]

/-- No deadlock: while the receive loop has not finished, some step is enabled. -/
theorem step_progress (n : Nat) (s : Collector) (hcap : 1 ≤ flags.concurrency)
    (hall : (allVisits T flags s).length = n) (hlt : s.visits.length < n) :
    ∃ a s', step T flags n s a = some s' := by
  rw [length_allVisits] at hall
  cases hq : s.visitQ with
  | cons visit q =>
    exact ⟨Action.receive, { s with visitQ := q, visits := s.visits ++ [visit] }, by
      simp [step, hlt, hq]⟩
  | nil =>
    cases hp : s.pending with
    | nil =>
      rw [hq, hp] at hall
      simp at hall
      omega
    | cons urlAddr rest =>
      refine ⟨Action.finish 0, ?_⟩
      simp only [step, hp, hq, List.getElem?_cons_zero, List.length_nil, Nat.cast_zero]
      rw [if_pos (by omega)]
      exact ⟨_, rfl⟩

/-- Every state in which no visit is lost can be run to the end of the receive
loop. -/
theorem runSchedule_completes (n : Nat) (hcap : 1 ≤ flags.concurrency) :
    ∀ (w : Nat) (s : Collector), weight s = w → (allVisits T flags s).length = n →
      ∃ sched s', runSchedule T flags n s sched = some s' ∧ s'.visits.length = n
  | w, s, hw, hall => by
    by_cases hlt : s.visits.length < n
    · obtain ⟨a, s₁, hstep⟩ := step_progress T flags n s hcap hall hlt
      have hw1 := step_weight T flags n s s₁ a hstep
      have hall1 : (allVisits T flags s₁).length = n := by
        rw [(step_allVisits T flags n s s₁ a hstep).length_eq, hall]
      obtain ⟨sched, s', hrun, hlen⟩ :=
        runSchedule_completes n hcap (weight s₁) s₁ rfl hall1
      refine ⟨a :: sched, s', ?_, hlen⟩
      simp [runSchedule, hstep, hrun]
    · refine ⟨[], s, rfl, ?_⟩
      rw [length_allVisits] at hall
      omega
termination_by w => w
decreasing_by
  simp_wf
  omega

end Concurrent

/-! ## The serial branch and `main` -/

section Main

variable {Req Resp : Type} (T : Transport Req Resp) (table : Char → Char) (flags : Flags)

theorem serialStep_visits (st : List Visit × List Event) (urlAddr : String) :
    (serialStep T flags st urlAddr).1
      = st.1 ++ [serialVisit T flags urlAddr].filter (fun v => v.Error.isNone) := by
  unfold serialStep serialVisit
  cases herr : (visitUrl T none urlAddr flags.method flags.timeout false flags.verbose).1.Error with
  | none => simp [herr]
  | some err =>
    simp only [herr]
    split <;> simp [herr]

theorem foldl_serialStep_visits :
    ∀ (args : List String) (st : List Visit × List Event),
      (args.foldl (serialStep T flags) st).1
        = st.1 ++ (args.map (serialVisit T flags)).filter (fun v => v.Error.isNone)
  | [], st => by simp
  | urlAddr :: args, st => by
    rw [List.foldl_cons, foldl_serialStep_visits args, serialStep_visits, List.map_cons,
      List.append_assoc, ← List.filter_append, List.singleton_append]

theorem serialLoop_visits (args : List String) :
    (serialLoop T flags args).1
      = (args.map (serialVisit T flags)).filter (fun v => v.Error.isNone) := by
  unfold serialLoop
  rw [foldl_serialStep_visits]
  rfl

theorem main_timeout_invalid (args : List String) (sched : List Action)
    (h : flags.timeout < 1 ∨ flags.timeout > 600) :
    main T table flags args sched
      = some { exitCode := 1, visits := []
               trace := [Event.print "-t timeout param must be in the range [1, 600]\n"] } := by
  unfold main
  rw [if_pos h]

theorem main_concurrency_invalid (args : List String) (sched : List Action)
    (ht : ¬ (flags.timeout < 1 ∨ flags.timeout > 600))
    (h : flags.concurrency < 1 ∨ flags.concurrency > 100) :
    main T table flags args sched
      = some { exitCode := 2, visits := []
               trace := [Event.print "-c concurrency param must be in the range [1, 100]\n"] } := by
  unfold main
  rw [if_neg ht, if_pos h]

theorem main_method_invalid (args : List String) (sched : List Action)
    (ht : ¬ (flags.timeout < 1 ∨ flags.timeout > 600))
    (hc : ¬ (flags.concurrency < 1 ∨ flags.concurrency > 100))
    (h : contains validMethods (ToUpper table flags.method) = false) :
    main T table flags args sched
      = some { exitCode := 3, visits := []
               trace := [Event.print ("-m http unsupported http method, use valid values [GET, HEAD, POST, PUT, PATCH, DELETE, " ++
                 "CONNECT, OPTIONS, TRACE]\n")] } := by
  unfold main
  rw [if_neg ht, if_neg hc, if_pos (by simp [h])]

/-- A run that passes the three validations ends with exit code 0. -/
theorem main_valid_exitCode (args : List String) (sched : List Action)
    (ht : ¬ (flags.timeout < 1 ∨ flags.timeout > 600))
    (hc : ¬ (flags.concurrency < 1 ∨ flags.concurrency > 100))
    (hm : contains validMethods (ToUpper table flags.method) = true) (o : Outcome)
    (h : main T table flags args sched = some o) : o.exitCode = 0 := by
  unfold main at h
  rw [if_neg ht, if_neg hc, if_neg (by simp [hm])] at h
  by_cases hargs : args.length > 0
  · rw [if_pos hargs] at h
    by_cases hconc : flags.concurrency > 1
    · rw [if_pos hconc] at h
      cases hrun : runSchedule T flags args.length (initCollector args) sched with
      | none => simp [hrun] at h
      | some s =>
        simp only [hrun] at h
        by_cases hlen : s.visits.length = args.length
        · rw [if_pos hlen] at h
          simp only [Option.some.injEq] at h
          rw [← h]
        · rw [if_neg hlen] at h
          exact absurd h (by simp)
    · rw [if_neg hconc] at h
      simp only [Option.some.injEq] at h
      rw [← h]
  · rw [if_neg hargs] at h
    simp only [Option.some.injEq] at h
    rw [← h]

/-- The serial branch: the run ends normally with the sorted visits of the loop. -/
theorem main_serial (args : List String) (sched : List Action)
    (ht : ¬ (flags.timeout < 1 ∨ flags.timeout > 600))
    (hc : ¬ (flags.concurrency < 1 ∨ flags.concurrency > 100))
    (hm : contains validMethods (ToUpper table flags.method) = true)
    (hserial : ¬ flags.concurrency > 1) :
    ∃ o, main T table flags args sched = some o ∧ o.exitCode = 0 ∧
      o.visits = sortVisits (serialLoop T flags args).1 true := by
  unfold main
  rw [if_neg ht, if_neg hc, if_neg (by simp [hm])]
  by_cases hargs : args.length > 0
  · rw [if_pos hargs, if_neg hserial]
    exact ⟨_, rfl, rfl, rfl⟩
  · rw [if_neg hargs]
    refine ⟨_, rfl, rfl, ?_⟩
    have hnil : args = [] := by
      cases args with
      | nil => rfl
      | cons a l => simp at hargs
    rw [hnil]
    rfl

end Main

section Main

variable {Req Resp : Type} (T : Transport Req Resp) (table : Char → Char) (flags : Flags)

/-- The four ways a run can end, in the order of the checks of `main`. -/
theorem main_cases (args : List String) (sched : List Action) (o : Outcome)
    (h : main T table flags args sched = some o) :
    ((flags.timeout < 1 ∨ flags.timeout > 600) ∧ o.exitCode = 1 ∧ o.visits = [] ∧
        visited o.trace = []) ∨
    (¬ (flags.timeout < 1 ∨ flags.timeout > 600) ∧
        (flags.concurrency < 1 ∨ flags.concurrency > 100) ∧ o.exitCode = 2 ∧ o.visits = [] ∧
        visited o.trace = []) ∨
    (¬ (flags.timeout < 1 ∨ flags.timeout > 600) ∧
        ¬ (flags.concurrency < 1 ∨ flags.concurrency > 100) ∧
        contains validMethods (ToUpper table flags.method) = false ∧ o.exitCode = 3 ∧
        o.visits = [] ∧ visited o.trace = []) ∨
    (¬ (flags.timeout < 1 ∨ flags.timeout > 600) ∧
        ¬ (flags.concurrency < 1 ∨ flags.concurrency > 100) ∧
        contains validMethods (ToUpper table flags.method) = true ∧ o.exitCode = 0) := by
  by_cases ht : flags.timeout < 1 ∨ flags.timeout > 600
  · rw [main_timeout_invalid T table flags args sched ht, Option.some.injEq] at h
    exact Or.inl ⟨ht, by rw [← h], by rw [← h], by rw [← h]; rfl⟩
  · by_cases hc : flags.concurrency < 1 ∨ flags.concurrency > 100
    · rw [main_concurrency_invalid T table flags args sched ht hc, Option.some.injEq] at h
      exact Or.inr (Or.inl ⟨ht, hc, by rw [← h], by rw [← h], by rw [← h]; rfl⟩)
    · cases hm : contains validMethods (ToUpper table flags.method) with
      | false =>
        rw [main_method_invalid T table flags args sched ht hc hm, Option.some.injEq] at h
        exact Or.inr (Or.inr (Or.inl ⟨ht, hc, rfl, by rw [← h], by rw [← h], by rw [← h]; rfl⟩))
      | true =>
        exact Or.inr (Or.inr (Or.inr
          ⟨ht, hc, rfl, main_valid_exitCode T table flags args sched ht hc hm o h⟩))

/-- The concurrent branch: the final list is the sorted list of the visits
gathered by the receive loop, one per URL. -/
theorem main_concurrent (args : List String) (sched : List Action) (o : Outcome)
    (ht : ¬ (flags.timeout < 1 ∨ flags.timeout > 600))
    (hc : ¬ (flags.concurrency < 1 ∨ flags.concurrency > 100))
    (hm : contains validMethods (ToUpper table flags.method) = true)
    (hconc : flags.concurrency > 1) (hargs : args ≠ [])
    (h : main T table flags args sched = some o) :
    ∃ s, runSchedule T flags args.length (initCollector args) sched = some s ∧
      s.visits.length = args.length ∧ o.visits = sortVisits s.visits true := by
  unfold main at h
  have hlen : args.length > 0 := List.length_pos.mpr hargs
  rw [if_neg ht, if_neg hc, if_neg (by simp [hm]), if_pos hlen, if_pos hconc] at h
  cases hrun : runSchedule T flags args.length (initCollector args) sched with
  | none => simp [hrun] at h
  | some s =>
    simp only [hrun] at h
    by_cases hl : s.visits.length = args.length
    · rw [if_pos hl, Option.some.injEq] at h
      exact ⟨s, rfl, hl, by rw [← h]⟩
    · rw [if_neg hl] at h
      exact absurd h (by simp)

end Main

/-! ## The list gathered by the receive loop -/

/-- Once the receive loop has made its `len(args)` receives, the gathered list
is a permutation of the per-URL outcomes. -/
theorem runSchedule_visits_perm {Req Resp : Type} (T : Transport Req Resp) (flags : Flags)
    (args : List String) (sched : List Action) (s : Collector)
    (hrun : runSchedule T flags args.length (initCollector args) sched = some s)
    (hfull : s.visits.length = args.length) :
    s.visits.Perm (args.map (concurrentVisit T flags)) := by
  have hinit : allVisits T flags (initCollector args) = args.map (concurrentVisit T flags) := by
    simp [allVisits, initCollector]
  have hall : (allVisits T flags s).Perm (args.map (concurrentVisit T flags)) := by
    rw [← hinit]
    exact runSchedule_allVisits T flags args.length sched _ s hrun
  have hl := hall.length_eq
  rw [length_allVisits, List.length_map] at hl
  have hq : s.visitQ = [] := List.length_eq_zero.mp (by omega)
  have hp : s.pending = [] := List.length_eq_zero.mp (by omega)
  unfold allVisits at hall
  rw [hq, hp] at hall
  simpa using hall

/-- The final list of a run of the concurrent branch is the ascending sort of
the list gathered by the receive loop of that run. -/
theorem main_concurrent_visits {Req Resp : Type} (T : Transport Req Resp)
    (table : Char → Char) (flags : Flags) (args : List String) (sched : List Action)
    (visits : List Visit)
    (ht : 1 ≤ flags.timeout ∧ flags.timeout ≤ 600)
    (hc : 1 < flags.concurrency ∧ flags.concurrency ≤ 100)
    (hm : ToUpper table flags.method ∈ validMethods) (hargs : args ≠ [])
    (h : (main T table flags args sched).map Outcome.visits = some visits) :
    ∃ s, runSchedule T flags args.length (initCollector args) sched = some s ∧
      s.visits.length = args.length ∧
      s.visits.Perm (args.map (concurrentVisit T flags)) ∧
      visits = sortVisits s.visits true := by
  cases hmain : main T table flags args sched with
  | none => simp [hmain] at h
  | some o =>
    simp only [hmain, Option.map_some', Option.some.injEq] at h
    obtain ⟨s, hrun, hfull, hsorted⟩ := main_concurrent T table flags args sched o
      (by omega) (by omega) ((contains_iff_mem _ _).mpr hm) (by omega) hargs hmain
    exact ⟨s, hrun, hfull, runSchedule_visits_perm T flags args sched s hrun hfull,
      by rw [← h, hsorted]⟩

/-! ## The claims of the specification -/

/-- C1: `sortVisits` is stable in both directions.  For every list of visits and
either value of `asc`, the visits of any given `BodySize` occur in the sorted
list in exactly their input order; in particular two visits of equal size that
occur in the order `a`, `b` in the input occur in that order in the result. -/
theorem sortVisits_stable (visits : List Visit) (asc : Bool) :
    (∀ size : Int, (sortVisits visits asc).filter (fun v => decide (v.BodySize = size))
        = visits.filter (fun v => decide (v.BodySize = size))) ∧
    (∀ a b : Visit, a.BodySize = b.BodySize → List.Sublist [a, b] visits →
        List.Sublist [a, b] (sortVisits visits asc)) := by
  refine ⟨fun size => sortVisits_filter visits asc size, ?_⟩
  intro a b hsize hsub
  have h1 := hsub.filter (fun v => decide (v.BodySize = a.BodySize))
  rw [← sortVisits_filter visits asc a.BodySize] at h1
  have h2 : [a, b].filter (fun v => decide (v.BodySize = a.BodySize)) = [a, b] := by
    simp [List.filter_cons, hsize]
  rw [h2] at h1
  exact h1.trans (List.filter_sublist _)

/-- Instance of C1: two visits of size 3 keep their order in a descending sort. -/
theorem sortVisits_stable_witness :
    List.Sublist [(⟨"a", 3, none⟩ : Visit), ⟨"c", 3, none⟩]
      [⟨"a", 3, none⟩, ⟨"b", 5, none⟩, ⟨"c", 3, none⟩] ∧
    List.Sublist [(⟨"a", 3, none⟩ : Visit), ⟨"c", 3, none⟩]
      (sortVisits [⟨"a", 3, none⟩, ⟨"b", 5, none⟩, ⟨"c", 3, none⟩] false) :=
  ⟨by decide,
   (sortVisits_stable [⟨"a", 3, none⟩, ⟨"b", 5, none⟩, ⟨"c", 3, none⟩] false).2
      ⟨"a", 3, none⟩ ⟨"c", 3, none⟩ rfl (by decide)⟩

/-- C2: `sortVisits` returns a permutation of its input, of the same length,
ordered by `BodySize`: non-decreasing when `asc` is true and non-increasing when
it is false.  The comparison consults only `BodySize`: rewriting the other
fields of the visits by any map `f` that keeps `BodySize` rewrites the result by
the same map. -/
theorem sortVisits_perm_sorted (visits : List Visit) (asc : Bool) (f : Visit → Visit)
    (hf : ∀ v, (f v).BodySize = v.BodySize) :
    (sortVisits visits asc).Perm visits ∧
    (sortVisits visits asc).length = visits.length ∧
    (sortVisits visits asc).Pairwise
      (fun a b => if asc = true then a.BodySize ≤ b.BodySize else b.BodySize ≤ a.BodySize) ∧
    sortVisits (visits.map f) asc = (sortVisits visits asc).map f := by
  refine ⟨sortVisits_perm visits asc, (sortVisits_perm visits asc).length_eq, ?_,
    sortVisits_map visits asc f hf⟩
  cases asc
  · simpa using sortVisits_sorted_desc visits
  · simpa using sortVisits_sorted_asc visits

/-- Instance of C2: the list of the repository's sorting tests, with the URL and
error of every visit overwritten. -/
theorem sortVisits_perm_sorted_witness :
    (sortVisits testVisits true).Perm testVisits ∧
    sortVisits (testVisits.map (fun v => { v with Url := "", Error := some "e" })) true
      = (sortVisits testVisits true).map (fun v => { v with Url := "", Error := some "e" }) :=
  have h := sortVisits_perm_sorted testVisits true
    (fun v => { v with Url := "", Error := some "e" }) (fun _ => rfl)
  ⟨h.1, h.2.2.2⟩

/-- C3 as stated fails: two visits of the same size (here two failed fetches of 0
bytes) are listed in the order in which they were received, so two completion
orders of the same run give two different reports. -/
theorem sortVisits_ties_follow_completion_order :
    [(⟨"http://a", 0, some "timeout"⟩ : Visit), ⟨"http://b", 0, some "timeout"⟩].Perm
      [⟨"http://b", 0, some "timeout"⟩, ⟨"http://a", 0, some "timeout"⟩] ∧
    sortVisits [⟨"http://a", 0, some "timeout"⟩, ⟨"http://b", 0, some "timeout"⟩] true
      ≠ sortVisits [⟨"http://b", 0, some "timeout"⟩, ⟨"http://a", 0, some "timeout"⟩] true ∧
    (main mockTransport id (mockFlags 2 "GET") downArgs
        [Action.finish 0, Action.finish 0, Action.receive, Action.receive]).map Outcome.visits
      = some [⟨"http://a", 0, some "timeout"⟩, ⟨"http://b", 0, some "timeout"⟩] ∧
    (main mockTransport id (mockFlags 2 "GET") downArgs
        [Action.finish 1, Action.finish 0, Action.receive, Action.receive]).map Outcome.visits
      = some [⟨"http://b", 0, some "timeout"⟩, ⟨"http://a", 0, some "timeout"⟩] := by
  decide

/-- C3 amended: in concurrent mode the final list of a run is the ascending
sort of the list gathered by the receive loop of that run, which is a
permutation of the per-URL outcomes.  For every two schedules (completion
orders) of the same run the two final lists are permutations of one another
with the same sequence of sizes; in each of them the visits of any given
`BodySize` stand in the order in which that run received them (completion
order); and the two final lists are identical when outcomes of equal
`BodySize` are equal.  The same holds of `sortVisits` on any two arrangements
of the same visits. -/
theorem concurrent_report_order {Req Resp : Type} (T : Transport Req Resp)
    (table : Char → Char) (flags : Flags) (args : List String)
    (sched₁ sched₂ : List Action) (v₁ v₂ : List Visit)
    (ht : 1 ≤ flags.timeout ∧ flags.timeout ≤ 600)
    (hc : 1 < flags.concurrency ∧ flags.concurrency ≤ 100)
    (hm : ToUpper table flags.method ∈ validMethods) (hargs : args ≠ [])
    (h₁ : (main T table flags args sched₁).map Outcome.visits = some v₁)
    (h₂ : (main T table flags args sched₂).map Outcome.visits = some v₂) :
    (∃ s₁ s₂,
      runSchedule T flags args.length (initCollector args) sched₁ = some s₁ ∧
      runSchedule T flags args.length (initCollector args) sched₂ = some s₂ ∧
      s₁.visits.Perm (args.map (concurrentVisit T flags)) ∧
      s₂.visits.Perm (args.map (concurrentVisit T flags)) ∧
      v₁ = sortVisits s₁.visits true ∧ v₂ = sortVisits s₂.visits true ∧
      (∀ size : Int, v₁.filter (fun v => decide (v.BodySize = size))
        = s₁.visits.filter (fun v => decide (v.BodySize = size))) ∧
      (∀ size : Int, v₂.filter (fun v => decide (v.BodySize = size))
        = s₂.visits.filter (fun v => decide (v.BodySize = size)))) ∧
    v₁.map Visit.BodySize = v₂.map Visit.BodySize ∧
    v₁.Perm v₂ ∧
    ((∀ a ∈ args.map (concurrentVisit T flags), ∀ b ∈ args.map (concurrentVisit T flags),
        a.BodySize = b.BodySize → a = b) → v₁ = v₂) ∧
    (∀ l₁ l₂ : List Visit, l₁.Perm l₂ →
      (sortVisits l₁ true).map Visit.BodySize = (sortVisits l₂ true).map Visit.BodySize ∧
      (sortVisits l₁ true).Perm (sortVisits l₂ true) ∧
      ((∀ a ∈ l₁, ∀ b ∈ l₁, a.BodySize = b.BodySize → a = b) →
        sortVisits l₁ true = sortVisits l₂ true)) := by
  obtain ⟨s₁, hrun₁, -, hperm₁, hv₁⟩ :=
    main_concurrent_visits T table flags args sched₁ v₁ ht hc hm hargs h₁
  obtain ⟨s₂, hrun₂, -, hperm₂, hv₂⟩ :=
    main_concurrent_visits T table flags args sched₂ v₂ ht hc hm hargs h₂
  have hperm : s₁.visits.Perm s₂.visits := hperm₁.trans hperm₂.symm
  refine ⟨⟨s₁, s₂, hrun₁, hrun₂, hperm₁, hperm₂, hv₁, hv₂, ?_, ?_⟩, ?_, ?_, ?_, ?_⟩
  · intro size
    rw [hv₁]
    exact sortVisits_filter s₁.visits true size
  · intro size
    rw [hv₂]
    exact sortVisits_filter s₂.visits true size
  · rw [hv₁, hv₂]
    exact sortVisits_sizes_of_perm s₁.visits s₂.visits hperm
  · rw [hv₁, hv₂]
    exact ((sortVisits_perm s₁.visits true).trans hperm).trans (sortVisits_perm s₂.visits true).symm
  · intro hties
    rw [hv₁, hv₂]
    refine sortVisits_eq_of_perm s₁.visits s₂.visits hperm ?_
    intro a ha b hb hab
    exact hties a (hperm₁.mem_iff.mp ha) b (hperm₁.mem_iff.mp hb) hab
  · intro l₁ l₂ h
    exact ⟨sortVisits_sizes_of_perm l₁ l₂ h,
      ((sortVisits_perm l₁ true).trans h).trans (sortVisits_perm l₂ true).symm,
      fun hties => sortVisits_eq_of_perm l₁ l₂ h hties⟩

/-- Instance of C3 amended: an answering and a failing URL of the mock
transport, fetched concurrently under two schedules; the sizes 39 and 0 differ,
so both runs end with the same list. -/
theorem concurrent_report_order_witness :
    (main mockTransport id (mockFlags 2 "GET") mockArgs
        [Action.finish 0, Action.finish 0, Action.receive, Action.receive]).map Outcome.visits
      = some (sortVisits [⟨"http://123.de", 39, none⟩, ⟨"http://1234.de", 0, some "timeout"⟩]
          true) ∧
    (main mockTransport id (mockFlags 2 "GET") mockArgs
        [Action.finish 1, Action.finish 0, Action.receive, Action.receive]).map Outcome.visits
      = some (sortVisits [⟨"http://1234.de", 0, some "timeout"⟩, ⟨"http://123.de", 39, none⟩]
          true) ∧
    sortVisits [⟨"http://123.de", 39, none⟩, ⟨"http://1234.de", 0, some "timeout"⟩] true
      = sortVisits [⟨"http://1234.de", 0, some "timeout"⟩, ⟨"http://123.de", 39, none⟩] true :=
  ⟨by decide, by decide,
   (concurrent_report_order mockTransport id (mockFlags 2 "GET") mockArgs
      [Action.finish 0, Action.finish 0, Action.receive, Action.receive]
      [Action.finish 1, Action.finish 0, Action.receive, Action.receive]
      (sortVisits [⟨"http://123.de", 39, none⟩, ⟨"http://1234.de", 0, some "timeout"⟩] true)
      (sortVisits [⟨"http://1234.de", 0, some "timeout"⟩, ⟨"http://123.de", 39, none⟩] true)
      ⟨by decide, by decide⟩ ⟨by decide, by decide⟩ (by decide) (by decide)
      (by decide) (by decide)).2.2.2.1 (by decide)⟩

/-- C4 as stated fails: the method is upper-cased before it is looked up, so the
lower-case spelling `get`, which is none of the nine canonical forms, passes the
validation; the run visits the URL and ends with exit code 0, not 3. -/
theorem method_get_passes_validation :
    "get" ∉ validMethods ∧
    (main mockTransport id (mockFlags 1 "get") ["http://123.de"] []).map
        (fun o => (o.exitCode, visited o.trace, o.visits))
      = some (0, ["http://123.de"], [⟨"http://123.de", 39, none⟩]) := by
  decide

/-- C4 amended: with timeout and concurrency in range, the run ends with exit
code 3 if and only if the method upper-cased by `strings.ToUpper` is not exactly
one of GET, HEAD, POST, PUT, PATCH, DELETE, CONNECT, OPTIONS, TRACE.  In that
case the run ends, whatever the arguments and the schedule, before any URL is
visited; otherwise no run ends with an exit code other than 0. -/
theorem method_validation {Req Resp : Type} (T : Transport Req Resp) (table : Char → Char)
    (flags : Flags) (args : List String) (sched : List Action)
    (ht : 1 ≤ flags.timeout ∧ flags.timeout ≤ 600)
    (hc : 1 ≤ flags.concurrency ∧ flags.concurrency ≤ 100) :
    ((main T table flags args sched).map Outcome.exitCode = some 3
      ↔ ToUpper table flags.method ∉ validMethods) ∧
    (ToUpper table flags.method ∉ validMethods →
      ∃ o, main T table flags args sched = some o ∧ o.exitCode = 3 ∧ o.visits = [] ∧
        visited o.trace = [] ∧ netCalls o.trace = []) ∧
    (ToUpper table flags.method ∈ validMethods →
      ∀ o, main T table flags args sched = some o → o.exitCode = 0) := by
  have ht' : ¬ (flags.timeout < 1 ∨ flags.timeout > 600) := by omega
  have hc' : ¬ (flags.concurrency < 1 ∨ flags.concurrency > 100) := by omega
  have hbad : ToUpper table flags.method ∉ validMethods →
      contains validMethods (ToUpper table flags.method) = false := by
    intro hm
    cases hcon : contains validMethods (ToUpper table flags.method) with
    | false => rfl
    | true => exact absurd ((contains_iff_mem _ _).mp hcon) hm
  refine ⟨⟨?_, ?_⟩, ?_, ?_⟩
  · intro h hmem
    cases hmain : main T table flags args sched with
    | none => simp [hmain] at h
    | some o =>
      have h0 := main_valid_exitCode T table flags args sched ht' hc'
        ((contains_iff_mem _ _).mpr hmem) o hmain
      simp [hmain, h0] at h
  · intro hm
    rw [main_method_invalid T table flags args sched ht' hc' (hbad hm)]
    rfl
  · intro hm
    exact ⟨_, main_method_invalid T table flags args sched ht' hc' (hbad hm), rfl, rfl, rfl, rfl⟩
  · intro hmem o hmain
    exact main_valid_exitCode T table flags args sched ht' hc'
      ((contains_iff_mem _ _).mpr hmem) o hmain

/-- Instance of C4 amended: the method `FETCH` ends the run with exit code 3. -/
theorem method_validation_witness :
    (main mockTransport id (mockFlags 1 "FETCH") mockArgs []).map Outcome.exitCode = some 3 :=
  (method_validation mockTransport id (mockFlags 1 "FETCH") mockArgs []
    ⟨by decide, by decide⟩ ⟨by decide, by decide⟩).1.mpr (by decide)

/-- C5: whenever `visitUrl` fails, at request construction, at the client call or
at the dump of the response, the returned visit has `BodySize` 0, carries that
stage's error (so its `Error` is not nil) and has the input URL unmodified; when
request construction fails no network call is made. -/
theorem visitUrl_failure {Req Resp : Type} (T : Transport Req Resp) (client : Option Client)
    (urlAddress method : String) (timeout : Int) (concurrent verbose : Bool) (err : String)
    (hfail : T.newRequest method urlAddress = Except.error err ∨
      (∃ req, T.newRequest method urlAddress = Except.ok req ∧
        T.clientDo (clientFor client timeout) req = Except.error err) ∨
      (∃ req resp, T.newRequest method urlAddress = Except.ok req ∧
        T.clientDo (clientFor client timeout) req = Except.ok resp ∧
        T.dumpResponse resp = Except.error err)) :
    (visitUrl T client urlAddress method timeout concurrent verbose).1.BodySize = 0 ∧
    (visitUrl T client urlAddress method timeout concurrent verbose).1.Error = some err ∧
    (visitUrl T client urlAddress method timeout concurrent verbose).1.Error ≠ none ∧
    (visitUrl T client urlAddress method timeout concurrent verbose).1.Url = urlAddress ∧
    (T.newRequest method urlAddress = Except.error err →
      netCalls (visitUrl T client urlAddress method timeout concurrent verbose).2 = []) := by
  have hv : (visitUrl T client urlAddress method timeout concurrent verbose).1
      = { Url := urlAddress, BodySize := 0, Error := some err } := by
    rcases hfail with h | ⟨req, h₁, h₂⟩ | ⟨req, resp, h₁, h₂, h₃⟩
    · exact (visitUrl_newRequest_error T client urlAddress method timeout concurrent verbose
        err h).1
    · exact visitUrl_clientDo_error T client urlAddress method timeout concurrent verbose
        req err h₁ h₂
    · exact visitUrl_dumpResponse_error T client urlAddress method timeout concurrent verbose
        req resp err h₁ h₂ h₃
  refine ⟨by rw [hv], by rw [hv], by rw [hv]; simp, by rw [hv], ?_⟩
  intro h
  exact (visitUrl_newRequest_error T client urlAddress method timeout concurrent verbose
    err h).2

/-- Instance of C5: the endpoint of `TestVisitAsyncError`, which times out. -/
theorem visitUrl_failure_witness :
    (visitUrl mockTransport none "http://1234.de" "GET" 10 false false).1.BodySize = 0 ∧
    (visitUrl mockTransport none "http://1234.de" "GET" 10 false false).1.Error
      = some "timeout" :=
  have h := visitUrl_failure mockTransport none "http://1234.de" "GET" 10 false false "timeout"
    (Or.inr (Or.inl ⟨("GET", "http://1234.de"), rfl, rfl⟩))
  ⟨h.1, h.2.1⟩

/-- C6: when request construction, the client call and the dump of the response
all succeed, `visitUrl` returns a visit without error, with the input URL and
with `BodySize` the length of the dumped response; hence `BodySize` is at least
the length of any body contained in the dump. -/
theorem visitUrl_success {Req Resp : Type} (T : Transport Req Resp) (client : Option Client)
    (urlAddress method : String) (timeout : Int) (concurrent verbose : Bool)
    (req : Req) (resp : Resp) (b : List Byte)
    (h₁ : T.newRequest method urlAddress = Except.ok req)
    (h₂ : T.clientDo (clientFor client timeout) req = Except.ok resp)
    (h₃ : T.dumpResponse resp = Except.ok b) :
    (visitUrl T client urlAddress method timeout concurrent verbose).1.Error = none ∧
    (visitUrl T client urlAddress method timeout concurrent verbose).1.Url = urlAddress ∧
    (visitUrl T client urlAddress method timeout concurrent verbose).1.BodySize
      = (b.length : Int) ∧
    (∀ body : List Byte, List.IsInfix body b →
      (body.length : Int)
        ≤ (visitUrl T client urlAddress method timeout concurrent verbose).1.BodySize) := by
  have hv := visitUrl_ok T client urlAddress method timeout concurrent verbose req resp b
    h₁ h₂ h₃
  refine ⟨by rw [hv], by rw [hv], by rw [hv], ?_⟩
  intro body hbody
  rw [hv]
  exact Int.ofNat_le.mpr hbody.length_le

/-- Instance of C6: the endpoint of `TestVisitSync`, whose body of 22 bytes is
dumped with its status line and headers. -/
theorem visitUrl_success_witness :
    (visitUrl mockTransport none "http://123.de" "GET" 10 false false).1.Error = none ∧
    ((mockBody.length : Nat) : Int)
      ≤ (visitUrl mockTransport none "http://123.de" "GET" 10 false false).1.BodySize :=
  have h := visitUrl_success mockTransport none "http://123.de" "GET" 10 false false
    ("GET", "http://123.de") mockBody (List.replicate 17 0 ++ mockBody) rfl rfl rfl
  ⟨h.1, h.2.2.2 mockBody (List.suffix_append _ _).isInfix⟩

/-- C7: in concurrent mode exactly one visit is collected per URL, failures
included.  Every concurrent call of `visitUrl` sends exactly one visit, the one
it returns, on every return path.  For every schedule of the goroutines and the
receive loop: once the loop has made its `len(args)` receives, the gathered
list is a permutation of the per-URL outcomes and nothing is left in the channel
or pending; every execution prefix extends to such a complete execution (the
receive loop cannot deadlock), and no execution has more than `2 * len(args)`
steps. -/
theorem concurrent_one_visit_per_url {Req Resp : Type} (T : Transport Req Resp)
    (flags : Flags) (args : List String) (sched : List Action) (s : Collector)
    (hconc : 1 < flags.concurrency)
    (hrun : runSchedule T flags args.length (initCollector args) sched = some s) :
    (∀ (client : Option Client) (urlAddress method : String) (timeout : Int) (verbose : Bool),
      sends (visitUrl T client urlAddress method timeout true verbose).2
        = [(visitUrl T client urlAddress method timeout true verbose).1]) ∧
    (s.visits.length = args.length →
      s.visits.Perm (args.map (concurrentVisit T flags)) ∧ s.visitQ = [] ∧ s.pending = []) ∧
    (∃ sched' s', runSchedule T flags args.length s sched' = some s' ∧
      s'.visits.length = args.length ∧ s'.visits.Perm (args.map (concurrentVisit T flags))) ∧
    sched.length ≤ 2 * args.length := by
  have hinit : allVisits T flags (initCollector args) = args.map (concurrentVisit T flags) := by
    simp [allVisits, initCollector]
  have hall : (allVisits T flags s).Perm (args.map (concurrentVisit T flags)) := by
    rw [← hinit]
    exact runSchedule_allVisits T flags args.length sched _ s hrun
  have hlen : (allVisits T flags s).length = args.length := by
    rw [hall.length_eq, List.length_map]
  have hfinal : ∀ s' : Collector, (allVisits T flags s').Perm (args.map (concurrentVisit T flags)) →
      s'.visits.length = args.length →
      s'.visits.Perm (args.map (concurrentVisit T flags)) ∧ s'.visitQ = [] ∧ s'.pending = [] := by
    intro s' hperm hfull
    have hl := hperm.length_eq
    rw [length_allVisits, List.length_map] at hl
    have hq : s'.visitQ = [] := List.length_eq_zero.mp (by omega)
    have hp : s'.pending = [] := List.length_eq_zero.mp (by omega)
    refine ⟨?_, hq, hp⟩
    have := hperm
    unfold allVisits at this
    rw [hq, hp] at this
    simpa using this
  refine ⟨fun client urlAddress method timeout verbose =>
    visitUrl_sends T client urlAddress method timeout verbose, hfinal s hall, ?_, ?_⟩
  · obtain ⟨sched', s', hrun', hfull⟩ :=
      runSchedule_completes T flags args.length (by omega) (weight s) s rfl hlen
    have hall' : (allVisits T flags s').Perm (args.map (concurrentVisit T flags)) :=
      (runSchedule_allVisits T flags args.length sched' s s' hrun').trans hall
    exact ⟨sched', s', hrun', hfull, (hfinal s' hall' hfull).1⟩
  · have hw := runSchedule_weight T flags args.length sched _ s hrun
    have h0 : weight (initCollector args) = 2 * args.length := by
      simp [weight, initCollector]
    omega

/-- Instance of C7: two goroutines over the mock transport, the second one
finishing first. -/
theorem concurrent_one_visit_per_url_witness :
    runSchedule mockTransport (mockFlags 2 "GET") mockArgs.length (initCollector mockArgs)
        [Action.finish 1, Action.finish 0, Action.receive, Action.receive]
      = some { pending := [], visitQ := []
               visits := [⟨"http://1234.de", 0, some "timeout"⟩, ⟨"http://123.de", 39, none⟩]
               trace := [Event.enter "http://1234.de",
                         Event.netCall ⟨10000000000⟩ "GET" "http://1234.de",
                         Event.send ⟨"http://1234.de", 0, some "timeout"⟩,
                         Event.enter "http://123.de",
                         Event.netCall ⟨10000000000⟩ "GET" "http://123.de",
                         Event.send ⟨"http://123.de", 39, none⟩] } ∧
    [(⟨"http://1234.de", 0, some "timeout"⟩ : Visit), ⟨"http://123.de", 39, none⟩].Perm
      (mockArgs.map (concurrentVisit mockTransport (mockFlags 2 "GET"))) :=
  ⟨by decide,
   ((concurrent_one_visit_per_url mockTransport (mockFlags 2 "GET") mockArgs
      [Action.finish 1, Action.finish 0, Action.receive, Action.receive]
      { pending := [], visitQ := []
        visits := [⟨"http://1234.de", 0, some "timeout"⟩, ⟨"http://123.de", 39, none⟩]
        trace := [Event.enter "http://1234.de",
                  Event.netCall ⟨10000000000⟩ "GET" "http://1234.de",
                  Event.send ⟨"http://1234.de", 0, some "timeout"⟩,
                  Event.enter "http://123.de",
                  Event.netCall ⟨10000000000⟩ "GET" "http://123.de",
                  Event.send ⟨"http://123.de", 39, none⟩] }
      (by decide) (by decide)).2.1 rfl).1⟩

/-- C8: in serial mode (concurrency 1, flags valid) the list handed to
`sortVisits` is the sequence of the `visitUrl` outcomes in input order with
every outcome that carries an error removed, whether or not verbose is set; no
listed visit carries an error, and the run ends with exit code 0 with the
sorted form of that list as its final list. -/
theorem serial_mode_drops_failures {Req Resp : Type} (T : Transport Req Resp)
    (table : Char → Char) (flags : Flags) (args : List String) (sched : List Action)
    (ht : 1 ≤ flags.timeout ∧ flags.timeout ≤ 600) (hc : flags.concurrency = 1)
    (hm : ToUpper table flags.method ∈ validMethods) :
    (serialLoop T flags args).1
      = (args.map (serialVisit T flags)).filter (fun v => v.Error.isNone) ∧
    (∀ v ∈ (serialLoop T flags args).1, v.Error = none) ∧
    (∃ o, main T table flags args sched = some o ∧ o.exitCode = 0 ∧
      o.visits = sortVisits
        ((args.map (serialVisit T flags)).filter (fun v => v.Error.isNone)) true ∧
      ∀ v ∈ o.visits, v.Error = none) := by
  have hloop := serialLoop_visits T flags args
  have hnone : ∀ v ∈ (args.map (serialVisit T flags)).filter (fun v => v.Error.isNone),
      v.Error = none := by
    intro v hv
    have := (List.mem_filter.mp hv).2
    simpa using this
  refine ⟨hloop, ?_, ?_⟩
  · rw [hloop]
    exact hnone
  · obtain ⟨o, ho, hexit, hvisits⟩ := main_serial T table flags args sched (by omega)
      (by omega) ((contains_iff_mem _ _).mpr hm) (by omega)
    rw [hloop] at hvisits
    refine ⟨o, ho, hexit, hvisits, ?_⟩
    intro v hv
    rw [hvisits] at hv
    exact hnone v ((sortVisits_perm _ true).mem_iff.mp hv)

/-- Instance of C8: of an answering and a failing URL only the first is listed. -/
theorem serial_mode_drops_failures_witness :
    (serialLoop mockTransport (mockFlags 1 "GET") mockArgs).1
      = [⟨"http://123.de", 39, none⟩] :=
  (serial_mode_drops_failures mockTransport id (mockFlags 1 "GET") mockArgs []
    ⟨by decide, by decide⟩ rfl (by decide)).1.trans (by decide)

/-- C9: `contains(s, e)` is true if and only if some element of `s` equals `e`
exactly; it is false if and only if every element differs from `e`, so it is
false for the empty slice and for an element that matches an entry only up to
letter case, as in the repository's test. -/
theorem contains_exact (s : List String) (e : String) :
    (contains s e = true ↔ ∃ a ∈ s, a = e) ∧
    (contains s e = false ↔ ∀ a ∈ s, a ≠ e) ∧
    contains [] e = false ∧
    contains ["GET", "POST"] "POST" = true ∧
    contains ["GET", "POST"] "PUT" = false ∧
    contains ["GET", "POST"] "get" = false := by
  have h := contains_iff_mem e s
  refine ⟨?_, ?_, rfl, by decide, by decide, by decide⟩
  · rw [h]
    simp
  · rw [← Bool.not_eq_true, h]
    constructor
    · intro hne a ha hae
      exact hne (hae ▸ ha)
    · intro hall hmem
      exact hall e hmem rfl

/-- C10: the run ends with exit code 1 if and only if the timeout is outside
[1, 600]; with the timeout in range it ends with exit code 2 if and only if the
concurrency is outside [1, 100]; the bounds are inclusive, and a run that ends
with exit code 1 or 2 has visited no URL. -/
theorem main_integer_flags {Req Resp : Type} (T : Transport Req Resp) (table : Char → Char)
    (flags : Flags) (args : List String) (sched : List Action) :
    ((main T table flags args sched).map Outcome.exitCode = some 1
      ↔ (flags.timeout < 1 ∨ 600 < flags.timeout)) ∧
    ((1 ≤ flags.timeout ∧ flags.timeout ≤ 600) →
      ((main T table flags args sched).map Outcome.exitCode = some 2
        ↔ (flags.concurrency < 1 ∨ 100 < flags.concurrency))) ∧
    (∀ o, main T table flags args sched = some o → o.exitCode = 1 ∨ o.exitCode = 2 →
      o.visits = [] ∧ visited o.trace = []) := by
  refine ⟨⟨?_, ?_⟩, ?_, ?_⟩
  · intro h
    cases hmain : main T table flags args sched with
    | none => simp [hmain] at h
    | some o =>
      simp only [hmain, Option.map_some', Option.some.injEq] at h
      rcases main_cases T table flags args sched o hmain with
        ⟨hb, -⟩ | ⟨-, -, he, -⟩ | ⟨-, -, -, he, -⟩ | ⟨-, -, -, he⟩
      · exact hb
      · omega
      · omega
      · omega
  · intro h
    rw [main_timeout_invalid T table flags args sched h]
    rfl
  · intro ht
    have ht' : ¬ (flags.timeout < 1 ∨ flags.timeout > 600) := by omega
    constructor
    · intro h
      cases hmain : main T table flags args sched with
      | none => simp [hmain] at h
      | some o =>
        simp only [hmain, Option.map_some', Option.some.injEq] at h
        rcases main_cases T table flags args sched o hmain with
          ⟨hb, -⟩ | ⟨-, hb, -⟩ | ⟨-, -, -, he, -⟩ | ⟨-, -, -, he⟩
        · exact absurd hb ht'
        · exact hb
        · omega
        · omega
    · intro h
      rw [main_concurrency_invalid T table flags args sched ht' h]
      rfl
  · intro o hmain hexit
    rcases main_cases T table flags args sched o hmain with
      ⟨-, -, hv, htr⟩ | ⟨-, -, -, hv, htr⟩ | ⟨-, -, -, he, -⟩ | ⟨-, -, -, he⟩
    · exact ⟨hv, htr⟩
    · exact ⟨hv, htr⟩
    · omega
    · omega

/-- Instance of C10: timeout 601 with concurrency 0 ends the run with exit code
1, and timeout 600 with concurrency 101 with exit code 2. -/
theorem main_integer_flags_witness :
    (main mockTransport id ⟨601, 0, false, "GET"⟩ mockArgs []).map Outcome.exitCode = some 1 ∧
    (main mockTransport id ⟨600, 101, false, "GET"⟩ mockArgs []).map Outcome.exitCode
      = some 2 :=
  ⟨(main_integer_flags mockTransport id ⟨601, 0, false, "GET"⟩ mockArgs []).1.mpr
      (Or.inr (by decide)),
   ((main_integer_flags mockTransport id ⟨600, 101, false, "GET"⟩ mockArgs []).2.1
      ⟨by decide, by decide⟩).mpr (Or.inr (by decide))⟩

end WebsiteSizeChecker
